import Mathlib

/-!
# Verification of the SWSC game-server supervisor

A shallow embedding of the process-orchestration core of the
SWSC-GameServer repository (Go), together with theorems settling the
frozen claims about its natural-language specification.

Embedded components:
* the port allocator (`findAvailablePort`, `assignPort`, `releasePort`);
* the configuration-document transform pipeline at the level of the XML
  token stream the Go code operates on (`updateXmlPortTokens`,
  `extractRun`, `addWorkshopPathsTokens`) together with a model of the
  `encoding/xml` encoder's output formatting (`encodeTokens`);
* the content fetcher's accounting (`downloadWorkshopItems`,
  `extractDownloadedIds`) over an abstract filesystem environment;
* the crash-watch registry update (`watchAfterExit`) and the stop-request
  confirmation gate (`handleStopServer`).

Machine integers (`int` in Go) are modelled as `Int`; Go's
`map[K]bool` sets are modelled as `List` membership; Go's `map` lookups
are modelled as `Option`-valued functions.
-/

namespace SWSC

/-! ## Port allocator (src/unnamed/part_001)

`usedPorts : map[int]bool` is mutated only by `assignPort`/`releasePort`,
which only ever store `true`; we model it as the list of keys present.
-/

/-- Loop body of `findAvailablePort`: starting at `port`, try `fuel`
consecutive ports, returning the first not in `used`. -/
def findAvailablePortAux (used : List Int) (port : Int) : Nat → Option Int
  | 0 => none
  | fuel + 1 =>
    if port ∈ used then findAvailablePortAux used (port + 1) fuel
    else some port

/-- Go `findAvailablePort(minPort, maxPort)`: scan `minPort..maxPort`
(inclusive) in increasing order for the first port not in `used`;
`none` models the "no available port" error return. -/
def findAvailablePort (used : List Int) (minPort maxPort : Int) : Option Int :=
  findAvailablePortAux used minPort (maxPort + 1 - minPort).toNat

/-- Go `assignPort(port)`: reject out-of-range or already-used ports,
otherwise mark the port used.  Returns the Go function's boolean result
together with the updated port set. -/
def assignPort (minPort maxPort : Int) (used : List Int) (port : Int) :
    Bool × List Int :=
  if port < minPort ∨ port > maxPort then (false, used)
  else if port ∈ used then (false, used)
  else (true, port :: used)

/-- Go `releasePort(port)`: out-of-range or unused ports are a logged no-op,
otherwise the port is deleted from the set. -/
def releasePort (minPort maxPort : Int) (used : List Int) (port : Int) :
    List Int :=
  if port < minPort ∨ port > maxPort then used
  else used.filter (· ≠ port)

/-! ## `sendSyncStatus` (src/unnamed/part_000, lines 218-245) -/

/-- The `maxServers` value computed by `sendSyncStatus`:
`MaxPort - MinPort` when the range is considered valid
(`MaxPort >= MinPort`), otherwise `0`. -/
def computeMaxServers (minPort maxPort : Int) : Int :=
  if maxPort ≥ minPort then maxPort - minPort else 0

/-- Number of integer ports in the inclusive range `[minPort, maxPort]`. -/
def portRangeCount (minPort maxPort : Int) : Nat :=
  (maxPort + 1 - minPort).toNat

/-! ## XML token streams

Both transform passes (src/config_manager.go `updateXmlPort`,
src/xml_manager.go `extractWorkshopIDsAndModifyXML` /
`addWorkshopPathsToXML`) drive an `encoding/xml` decoder/encoder pair
token by token.  We embed the passes at the level of that token stream;
element and attribute names keep only the `Local` part, as the Go code
only ever inspects `Name.Local`. -/

inductive XmlToken where
  | startEl : String → List (String × String) → XmlToken
  | endEl : String → XmlToken
  | charData : String → XmlToken
deriving DecidableEq, Repr

/-! ## Port-rewrite pass (src/config_manager.go, lines 44-112) -/

/-- Attribute rewriting performed on the `<server_data>` start tag:
every `port` attribute is replaced by the new value in place; if none
was present, a `port` attribute is appended at the end. -/
def updatePortAttrs (newPortStr : String) (attrs : List (String × String)) :
    List (String × String) :=
  let updated := attrs.map (fun a => if a.1 = "port" then ("port", newPortStr) else a)
  if attrs.any (fun a => a.1 = "port") then updated
  else updated ++ [("port", newPortStr)]

/-- Per-token action of `updateXmlPort`: only `server_data` start
elements are rewritten, every other token is re-encoded as is. -/
def updatePortToken (newPortStr : String) : XmlToken → XmlToken
  | .startEl name attrs =>
    if name = "server_data" then .startEl name (updatePortAttrs newPortStr attrs)
    else .startEl name attrs
  | .endEl name => .endEl name
  | .charData s => .charData s

/-- Go `updateXmlPort` at token level: the Go loop handles one token at a
time with no cross-token state, i.e. it is a map over the stream
(`strconv.Itoa(newPort)` is `toString newPort`). -/
def updateXmlPortTokens (newPort : Int) (ts : List XmlToken) : List XmlToken :=
  ts.map (updatePortToken (toString newPort))

/-! ## Reference-extraction pass (src/xml_manager.go, lines 29-151) -/

/-- Go `workshopIDRegex = ^\d+$`: nonempty and all decimal digits. -/
def isNumericId (s : String) : Bool :=
  s.length > 0 && s.toList.all (fun c => c.isDigit)

/-- The attribute scan inside `extractWorkshopIDsAndModifyXML`: walk the
attributes; on an attribute named `path` whose value matches the
workshop-id regex, stop with that value; a non-numeric `path` attribute
is logged and the scan continues. -/
def findWorkshopAttr : List (String × String) → Option String
  | [] => none
  | (n, v) :: rest =>
    if n = "path" then
      if isNumericId v then some v else findWorkshopAttr rest
    else findWorkshopAttr rest

/-- The mutable locals of the extraction loop: the
`inPlaylists`/`inMods` flags, the element-skipping state
(`skipElement`/`depth`, collapsed into one counter where `0` means "not
skipping"), the two id accumulators and the encoded output. -/
structure ExtractState where
  inPlaylists : Bool
  inMods : Bool
  skip : Nat
  playlistIDs : List String
  modIDs : List String
  output : List XmlToken
deriving DecidableEq, Repr

/-- One iteration of the extraction loop of
`extractWorkshopIDsAndModifyXML`. -/
def extractStep (s : ExtractState) (t : XmlToken) : ExtractState :=
  if s.skip ≠ 0 then
    match t with
    | .startEl _ _ => { s with skip := s.skip + 1 }
    | .endEl _ => { s with skip := s.skip - 1 }
    | .charData _ => s
  else
    match t with
    | .startEl name attrs =>
      if name = "playlists" then
        { s with inPlaylists := true, inMods := false, output := s.output ++ [t] }
      else if name = "mods" then
        { s with inPlaylists := false, inMods := true, output := s.output ++ [t] }
      else if (s.inPlaylists || s.inMods) && name = "path" then
        match findWorkshopAttr attrs with
        | some id =>
          if s.inPlaylists then
            { s with playlistIDs := s.playlistIDs ++ [id], skip := 1 }
          else
            { s with modIDs := s.modIDs ++ [id], skip := 1 }
        | none => { s with output := s.output ++ [t] }
      else { s with output := s.output ++ [t] }
    | .endEl name =>
      let s' := { s with output := s.output ++ [t] }
      if name = "playlists" then { s' with inPlaylists := false }
      else if name = "mods" then { s' with inMods := false }
      else s'
    | .charData _ => { s with output := s.output ++ [t] }

/-- The whole extraction pass over a token stream, from the initial
loop state. -/
def extractRun (ts : List XmlToken) : ExtractState :=
  ts.foldl extractStep ⟨false, false, 0, [], [], []⟩

/-! ## Document trees and the specification-side extraction

The claims speak about elements "inside a playlists or mods container"
of a well-formed document; we give documents as ordered trees and relate
the token machine to a recursive specification over the tree. -/

mutual
inductive XmlTree where
  | elem : String → List (String × String) → XmlForest → XmlTree
  | txt : String → XmlTree
inductive XmlForest where
  | nil : XmlForest
  | cons : XmlTree → XmlForest → XmlForest
end

mutual
/-- Token stream of a tree (what the decoder yields for it). -/
def flattenTree : XmlTree → List XmlToken
  | .elem n a f => .startEl n a :: (flattenForest f ++ [.endEl n])
  | .txt s => [.charData s]
/-- Token stream of a forest. -/
def flattenForest : XmlForest → List XmlToken
  | .nil => []
  | .cons t f => flattenTree t ++ flattenForest f
end

def forestAppend : XmlForest → XmlForest → XmlForest
  | .nil, g => g
  | .cons t f, g => .cons t (forestAppend f g)

/-- Content kind of a container, per the spec's data model. -/
inductive Kind where
  | playlist
  | mod
deriving DecidableEq, Repr

/-- Position relative to the content-reference containers: outside any
container, or inside a container of the given kind. -/
inductive Mode where
  | outside
  | inside (k : Kind)
deriving DecidableEq, Repr

/-- The `inPlaylists`/`inMods` flag pair the extraction loop holds in
each mode. -/
def modeFlags : Mode → Bool × Bool
  | .outside => (false, false)
  | .inside .playlist => (true, false)
  | .inside .mod => (false, true)

/-- Specification-side: the value of the element's `path` attribute. -/
def pathAttr (attrs : List (String × String)) : Option String :=
  (attrs.find? (fun a => a.1 == "path")).map (fun a => a.2)

/-- Specification-side classification rule: the element carries a `path`
attribute whose value consists solely of numeric characters. -/
def isContentRef (attrs : List (String × String)) : Bool :=
  match pathAttr attrs with
  | some v => isNumericId v
  | none => false

mutual
/-- Well-formed configuration-document shape, relative to a position:
container elements (`playlists`/`mods`) never nest inside a container,
a content-reference `path` element inside a container is a leaf, and no
element inside a container carries more than one `path` attribute. -/
def wfTree (m : Mode) : XmlTree → Bool
  | .txt _ => true
  | .elem n a f =>
    match m with
    | .outside =>
      if n = "playlists" then wfForest (.inside .playlist) f
      else if n = "mods" then wfForest (.inside .mod) f
      else wfForest .outside f
    | .inside k =>
      !(n == "playlists") && !(n == "mods") &&
      (if n = "path" then
        decide ((a.filter (fun p => p.1 == "path")).length ≤ 1) &&
        (if isContentRef a then
          (match f with | .nil => true | .cons _ _ => false)
        else wfForest (.inside k) f)
      else wfForest (.inside k) f)
def wfForest (m : Mode) : XmlForest → Bool
  | .nil => true
  | .cons t f => wfTree m t && wfForest m f
end

mutual
/-- Tree-level statement of the extraction rule the code implements
(the amended C3): inside a container, an element *named `path`* whose
`path` attribute value is solely numeric is recorded under the
container's kind (in encounter order, duplicates preserved) and
dropped; everything else — in particular every element with a
non-numeric `path` attribute — is preserved unmodified.  Note the
element-name restriction: the spec's words say "any leaf element that
carries a `path` attribute", which is a strictly wider rule — see
`claimLeafSpecTree` and the C3 counterexample. -/
def pathLeafSpecTree (m : Mode) : XmlTree → List String × List String × XmlForest
  | .txt s => ([], [], .cons (.txt s) .nil)
  | .elem n a f =>
    match m with
    | .outside =>
      if n = "playlists" then
        let r := pathLeafSpecForest (.inside .playlist) f
        (r.1, r.2.1, .cons (.elem n a r.2.2) .nil)
      else if n = "mods" then
        let r := pathLeafSpecForest (.inside .mod) f
        (r.1, r.2.1, .cons (.elem n a r.2.2) .nil)
      else
        let r := pathLeafSpecForest .outside f
        (r.1, r.2.1, .cons (.elem n a r.2.2) .nil)
    | .inside k =>
      if n = "path" && isContentRef a then
        match k, pathAttr a with
        | .playlist, some v => ([v], [], .nil)
        | .mod, some v => ([], [v], .nil)
        | _, none => ([], [], .nil)
      else
        let r := pathLeafSpecForest (.inside k) f
        (r.1, r.2.1, .cons (.elem n a r.2.2) .nil)
/-- Forest version of `pathLeafSpecTree`. -/
def pathLeafSpecForest (m : Mode) : XmlForest → List String × List String × XmlForest
  | .nil => ([], [], .nil)
  | .cons t f =>
    let r1 := pathLeafSpecTree m t
    let r2 := pathLeafSpecForest m f
    (r1.1 ++ r2.1, r1.2.1 ++ r2.2.1, forestAppend r1.2.2 r2.2.2)
end

/-- An element whose child forest is empty is a leaf. -/
def isLeafForest : XmlForest → Bool
  | .nil => true
  | .cons _ _ => false

mutual
/-- The extraction rule in the claim's own words, with no element-name
restriction: inside a container, *any leaf element* that carries a
`path` attribute whose value consists solely of numeric characters is
recorded under the container's kind and dropped; everything else is
preserved.  Compared against the code's rule (`pathLeafSpecTree`) in
the C3 counterexample. -/
def claimLeafSpecTree (m : Mode) : XmlTree → List String × List String × XmlForest
  | .txt s => ([], [], .cons (.txt s) .nil)
  | .elem n a f =>
    match m with
    | .outside =>
      if n = "playlists" then
        let r := claimLeafSpecForest (.inside .playlist) f
        (r.1, r.2.1, .cons (.elem n a r.2.2) .nil)
      else if n = "mods" then
        let r := claimLeafSpecForest (.inside .mod) f
        (r.1, r.2.1, .cons (.elem n a r.2.2) .nil)
      else
        let r := claimLeafSpecForest .outside f
        (r.1, r.2.1, .cons (.elem n a r.2.2) .nil)
    | .inside k =>
      if isLeafForest f && isContentRef a then
        match k, pathAttr a with
        | .playlist, some v => ([v], [], .nil)
        | .mod, some v => ([], [v], .nil)
        | _, none => ([], [], .nil)
      else
        let r := claimLeafSpecForest (.inside k) f
        (r.1, r.2.1, .cons (.elem n a r.2.2) .nil)
/-- Forest version of `claimLeafSpecTree`. -/
def claimLeafSpecForest (m : Mode) : XmlForest → List String × List String × XmlForest
  | .nil => ([], [], .nil)
  | .cons t f =>
    let r1 := claimLeafSpecTree m t
    let r2 := claimLeafSpecForest m f
    (r1.1 ++ r2.1, r1.2.1 ++ r2.2.1, forestAppend r1.2.2 r2.2.2)
end

/-- The document `<playlists><item path="123"/></playlists>`: a leaf
element inside the playlists container that carries a solely-numeric
`path` attribute but is named `item` rather than `path`. -/
def playlistsItemDoc : XmlForest :=
  .cons (.elem ("playlists") []
    (.cons (.elem ("item") [(("path"), ("123"))] .nil) .nil)) .nil

/-! ## Path-reinsertion pass (src/xml_manager.go, lines 165-261) -/

/-- Models `filepath.Join` for already-clean, nonempty forward-slash
segments (the form every path in this codebase takes before the final
separator replacement). -/
def goPathJoin (parts : List String) : String :=
  String.intercalate ("/") parts

/-- The playlist path template: `"/rom/data/workshop_missions/" + id`
(hardcoded slash-separated prefix, independent of any configured
directory). -/
def playlistPathValue (id : String) : String :=
  "/rom/data/workshop_missions/" ++ id

/-- The mod path template:
`filepath.Join(configDirAbsPath, "rom", "data", "workshop_mods", id)`
with every `/` then replaced by `\`. -/
def modPathValue (configDirAbs id : String) : String :=
  (goPathJoin [configDirAbs, "rom", "data", "workshop_mods", id]).replace ("/") "\\"

/-- The `<path .../>` element pair synthesized for one successful
playlist id. -/
def playlistElems (ids : List String) : List XmlToken :=
  ids.flatMap (fun id =>
    [.startEl ("path") [("path", playlistPathValue id)], .endEl ("path")])

/-- The `<path .../>` element pair synthesized for one successful mod
id. -/
def modElems (configDirAbs : String) (ids : List String) : List XmlToken :=
  ids.flatMap (fun id =>
    [.startEl ("path") [("path", modPathValue configDirAbs id)], .endEl ("path")])

/-- One iteration of the `addWorkshopPathsToXML` loop: on an
`</playlists>` (resp. `</mods>`) end tag with a nonempty success list,
the synthesized elements are encoded immediately before the end tag;
every token is then encoded as is. -/
def addStep (sp sm : List String) (configDirAbs : String)
    (acc : List XmlToken) (t : XmlToken) : List XmlToken :=
  match t with
  | .endEl name =>
    if name = "playlists" && decide (0 < sp.length) then
      acc ++ playlistElems sp ++ [t]
    else if name = "mods" && decide (0 < sm.length) then
      acc ++ modElems configDirAbs sm ++ [t]
    else acc ++ [t]
  | _ => acc ++ [t]

/-- Go `addWorkshopPathsToXML` at token level. -/
def addWorkshopPathsTokens (ts : List XmlToken) (sp sm : List String)
    (configDirAbs : String) : List XmlToken :=
  ts.foldl (addStep sp sm configDirAbs) []

/-- The tokens the reinsertion pass emits immediately before a given
token (nonempty only for the two container end tags). -/
def insertedBefore (sp sm : List String) (configDirAbs : String) :
    XmlToken → List XmlToken
  | .endEl name =>
    if name = "playlists" && decide (0 < sp.length) then playlistElems sp
    else if name = "mods" && decide (0 < sm.length) then modElems configDirAbs sm
    else []
  | _ => []

/-- Modelled from the spec: the reinserted path value claim C4 asserts —
the configured install directory for the kind joined with the content
id, in the downstream (Windows) path-separator convention. -/
def claimedReinsertedPath (installDir id : String) : String :=
  installDir ++ "\\" ++ id

/-! ## The `encoding/xml` encoder with `Indent("", "  ")`

Both passes re-encode their output through an encoder configured with
`encoder.Indent("", "  ")`; this model follows the stdlib printer's
`writeIndent` logic for that configuration (empty prefix, two-space
indent), for tokens whose names, attribute values and text need no XML
escaping. -/

structure EncState where
  depth : Nat
  indentedIn : Bool
  putNewline : Bool
  out : String
deriving DecidableEq, Repr

def indentString (n : Nat) : String :=
  String.join (List.replicate n ("  "))

/-- Go `printer.writeIndent(depthDelta)` for prefix `""`, indent `"  "`:
the printer's `putNewline` flag, initially false and set by the first
write, suppresses the newline before the very first token, so the
encoded output never starts with a newline. -/
def writeIndentGo (depthDelta : Int) (s : EncState) : EncState :=
  if depthDelta < 0 then
    let s1 : EncState := { s with depth := s.depth - 1 }
    if s1.indentedIn then { s1 with indentedIn := false }
    else
      { s1 with indentedIn := false,
                putNewline := true,
                out := (if s1.putNewline then s1.out ++ "\n" else s1.out)
                  ++ indentString s1.depth }
  else
    let s2 : EncState := { s with
      putNewline := true,
      out := (if s.putNewline then s.out ++ "\n" else s.out)
        ++ indentString s.depth }
    if depthDelta > 0 then { s2 with depth := s2.depth + 1, indentedIn := true }
    else s2

def attrsString (attrs : List (String × String)) : String :=
  String.join (attrs.map (fun a => " " ++ a.1 ++ "=\"" ++ a.2 ++ "\""))

/-- Go `Encoder.EncodeToken` for the three token shapes we model: start and
end elements are indented via `writeIndent(+1)`/`writeIndent(-1)`;
character data is written directly (the encoder never re-emits a
self-closing tag: an empty element always becomes
`<name ...></name>`). -/
def encodeTokenGo (s : EncState) (t : XmlToken) : EncState :=
  match t with
  | .startEl name attrs =>
    let s1 := writeIndentGo 1 s
    { s1 with out := s1.out ++ "<" ++ name ++ attrsString attrs ++ ">" }
  | .endEl name =>
    let s1 := writeIndentGo (-1) s
    { s1 with out := s1.out ++ "</" ++ name ++ ">" }
  | .charData txt =>
    { s with out := s.out ++ txt }

/-- Output bytes of encoding a token stream from a fresh encoder. -/
def encodeTokens (ts : List XmlToken) : String :=
  (ts.foldl encodeTokenGo ⟨0, false, false, ""⟩).out

/-- The tokens the decoder yields for the input bytes
`<server_data port="8000"><foo/></server_data>`: a self-closing tag
decodes to a start/end token pair, and there is no character data. -/
def serverDataFooTokens : List XmlToken :=
  [.startEl ("server_data") [("port", "8000")], .startEl ("foo") [],
   .endEl ("foo"), .endEl ("server_data")]

/-- The spec's round-trip example document
`<server_data port="8000"><playlists><path path="123"/><path path="abc"/></playlists></server_data>`
as a tree. -/
def wfDocExample : XmlForest :=
  .cons (.elem ("server_data") [("port", "8000")]
    (.cons (.elem ("playlists") []
      (.cons (.elem ("path") [("path", "123")] .nil)
        (.cons (.elem ("path") [("path", "abc")] .nil) .nil))) .nil)) .nil


/-! ## Content fetcher (src/unnamed/part_002, `DownloadWorkshopItems`)

The filesystem and the external tool are abstracted: the tool's
line-oriented stdout is a `List String`, and the outcomes of
`os.Stat`/`os.RemoveAll`/`copyDir` at each path are an environment. -/

/-- Attempt to match the literal characters `lit` at the head of `cs`,
returning the remainder on success. -/
def matchLiteral : List Char → List Char → Option (List Char)
  | [], cs => some cs
  | _ :: _, [] => none
  | p :: ps, c :: cs => if c = p then matchLiteral ps cs else none

/-- Match `steamCmdSuccessRegex = Success. Downloaded item (\d+)` at
this exact position: the literal `Success`, one arbitrary character
(the regex metacharacter `.`), the literal ` Downloaded item `, then a
maximal nonempty digit run — the captured id. -/
def markerAt (cs : List Char) : Option String :=
  match matchLiteral ("Success").toList cs with
  | none => none
  | some [] => none
  | some (_ :: rest) =>
    match matchLiteral (" Downloaded item ").toList rest with
    | none => none
    | some rest2 =>
      let ds := rest2.takeWhile (fun c => c.isDigit)
      if ds.isEmpty then none else some (String.mk ds)

/-- Leftmost match of the success regex in a line
(`FindStringSubmatch` semantics), returning the captured id. -/
def successMarkerId (line : String) : Option String :=
  go line.toList
where
  go : List Char → Option String
    | [] => none
    | c :: cs =>
      match markerAt (c :: cs) with
      | some s => some s
      | none => go cs

/-- Go `downloadSuccessMap`: the ids named by a success marker in the
tool's output, recorded once each at first appearance. -/
def extractDownloadedIds (lines : List String) : List String :=
  lines.foldl (fun acc line =>
    match successMarkerId line with
    | some id => if id ∈ acc then acc else acc ++ [id]
    | none => acc) []

/-- Outcome of an `os.Stat` call as the code inspects it. -/
inductive StatOutcome where
  | ok
  | notExist
  | errOther
deriving DecidableEq, Repr

/-- Outcome of an `os.RemoveAll` call as the code inspects it
(an error satisfying `os.IsNotExist` is tolerated). -/
inductive RemoveOutcome where
  | ok
  | errNotExist
  | errOther
deriving DecidableEq, Repr

/-- Abstract filesystem behaviour during one fetch batch. -/
structure FetchEnv where
  stat : String → StatOutcome
  removeAll : String → RemoveOutcome
  copyDir : String → String → Bool

/-- A filesystem environment in which every stat succeeds, every
removal succeeds and every copy succeeds. -/
def trivialFetchEnv : FetchEnv :=
  ⟨fun _ => .ok, fun _ => .ok, fun _ _ => true⟩

/-- Models `filepath.Dir` for forward-slash paths without a trailing
separator. -/
def goDirname (p : String) : String :=
  match p.splitOn ("/") with
  | [] => "."
  | [_] => "."
  | parts => String.intercalate ("/") parts.dropLast

/-- Go `allItems`: kind of a requested id.  Playlist entries are written
first and mod entries second, so an id requested as both is recorded as
a mod. -/
def itemKind (playlistIDs modIDs : List String) (id : String) : Option Kind :=
  if id ∈ modIDs then some .mod
  else if id ∈ playlistIDs then some .playlist
  else none

/-- The per-id body of the delete-and-copy loop: source under the
tool's content cache (`<base>/<id>/playlist` for playlists, `<base>/<id>`
for mods), target under the configured install directory; fail on a
missing source, any other stat error, a non-`IsNotExist` removal error,
or a copy error. -/
def materializeOk (env : FetchEnv) (contentBase playlistDir modDir : String)
    (k : Kind) (id : String) : Bool :=
  let src := match k with
    | .playlist => goPathJoin [contentBase, id, "playlist"]
    | .mod => goPathJoin [contentBase, id]
  let tgt := match k with
    | .playlist => goPathJoin [playlistDir, id]
    | .mod => goPathJoin [modDir, id]
  match env.stat src with
  | .notExist => false
  | .errOther => false
  | .ok =>
    match env.removeAll tgt with
    | .errOther => false
    | _ => env.copyDir src tgt

/-- The tool's content cache base:
`filepath.Join(filepath.Dir(steamCmdPath), "steamapps", "workshop", "content", gameAppID)`. -/
def steamCmdContentBase (steamCmdPath gameAppID : String) : String :=
  goPathJoin [goDirname steamCmdPath, "steamapps", "workshop", "content", gameAppID]

/-- Go `DownloadWorkshopItems` after a successful tool invocation: ids are
marked remotely-fetched from the output lines; each marked id that is
part of the request is materialized independently; the result lists are
the marked-and-materialized ids split by kind (the Go map iteration
order is arbitrary — the claims only concern membership). -/
def downloadWorkshopItems (playlistIDs modIDs : List String)
    (playlistDir modDir gameAppID steamCmdPath : String)
    (env : FetchEnv) (lines : List String) : List String × List String :=
  if playlistIDs.isEmpty && modIDs.isEmpty then ([], [])
  else
    let contentBase := steamCmdContentBase steamCmdPath gameAppID
    let downloaded := extractDownloadedIds lines
    let finalSuccess := downloaded.filter (fun id =>
      match itemKind playlistIDs modIDs id with
      | none => false
      | some k => materializeOk env contentBase playlistDir modDir k id)
    (finalSuccess.filter (fun id => itemKind playlistIDs modIDs id = some .playlist),
     finalSuccess.filter (fun id => itemKind playlistIDs modIDs id = some .mod))

/-! ## Failed-id accounting (src/unnamed/part_002, `calculateFailedIDs`) -/

/-- Go `calculateFailedIDs`: build the union success map, then collect, in
request order (playlists first, then mods), every requested id not in
it. -/
def calculateFailedIDs (requestedPlaylists requestedMods successfulPlaylists
    successfulMods : List String) : List String :=
  let successMap : String → Bool := fun id =>
    successfulPlaylists.contains id || successfulMods.contains id
  let failed1 := requestedPlaylists.foldl
    (fun acc id => if successMap id then acc else acc ++ [id]) []
  requestedMods.foldl
    (fun acc id => if successMap id then acc else acc ++ [id]) failed1

/-! ## Process registry, crash watch and stop handler
(src/unnamed/part_002) -/

/-- Go `RunningProcessInfo`: OS process handle (identified by its pid) and
the port the process holds. -/
structure ProcInfo where
  pid : Int
  port : Int
deriving DecidableEq, Repr

/-- Go `runningProcs : map[string]RunningProcessInfo`. -/
def Registry := String → Option ProcInfo

def registryInsert (reg : Registry) (name : String) (info : ProcInfo) : Registry :=
  fun n => if n = name then some info else reg n

def registryDelete (reg : Registry) (name : String) : Registry :=
  fun n => if n = name then none else reg n

/-- The supervisor events emitted by the crash watch. -/
inductive WatchEvent where
  | crashDetected (serverName : String) (pid : Int)
  | restartResult (serverName : String) (success : Bool)
deriving DecidableEq, Repr

structure WatchOutcome where
  reg : Registry
  used : List Int
  events : List WatchEvent

/-- The post-exit portion of `waitForProcessExit`: inspect the registry
under the lock — a still-present record with the watched pid means an
unexpected exit, so delete it and attempt one restart; on restart
success (`restartPid = some newPid`) install the new record under the
same name with the same port; on failure release the port.  A record
with a different pid, or no record, means a deliberate stop or a
superseding start: do nothing. -/
def watchAfterExit (minPort maxPort : Int) (reg : Registry) (used : List Int)
    (name : String) (pid : Int) (assignedPort : Int)
    (restartPid : Option Int) : WatchOutcome :=
  match reg name with
  | some info =>
    if info.pid = pid then
      let reg1 := registryDelete reg name
      match restartPid with
      | some newPid =>
        { reg := registryInsert reg1 name ⟨newPid, assignedPort⟩,
          used := used,
          events := [.crashDetected name pid, .restartResult name true] }
      | none =>
        { reg := reg1,
          used := releasePort minPort maxPort used assignedPort,
          events := [.crashDetected name pid, .restartResult name false] }
    else { reg := reg, used := used, events := [] }
  | none => { reg := reg, used := used, events := [] }

/-- Outcome of a `stopServer` request, as reflected in the response. -/
inductive StopOutcome where
  | needsConfirmation (players : Int)
  | notRunning
  | stopped
deriving DecidableEq, Repr

def StopOutcome.isNeedsConfirmation : StopOutcome → Bool
  | .needsConfirmation _ => true
  | _ => false

/-- Go `handleStopServerProcess` (src/unnamed/part_002, lines 713-813)
up to its registry/port effects: when `confirmed` is false the
occupancy check is the constant `dummyPlayerCount := 0`, and only a
positive count returns the needs-confirmation response; otherwise the
record is removed, the process killed and its port released (unless
recorded as `-1`). -/
def handleStopServer (minPort maxPort : Int) (reg : Registry) (used : List Int)
    (name : String) (confirmed : Bool) : StopOutcome × Registry × List Int :=
  let dummyPlayerCount : Int := 0
  if confirmed = false ∧ dummyPlayerCount > 0 then
    (.needsConfirmation dummyPlayerCount, reg, used)
  else
    match reg name with
    | none => (.notRunning, reg, used)
    | some info =>
      (.stopped, registryDelete reg name,
        if info.port ≠ -1 then releasePort minPort maxPort used info.port else used)

end SWSC

namespace SWSC

/-! ## Port allocator theorems -/

theorem findAvailablePortAux_spec (used : List Int) :
    ∀ (fuel : Nat) (port : Int),
      (∀ p, findAvailablePortAux used port fuel = some p →
        port ≤ p ∧ p < port + fuel ∧ p ∉ used ∧
          ∀ q, port ≤ q → q < p → q ∈ used) ∧
      (findAvailablePortAux used port fuel = none ↔
        ∀ q, port ≤ q → q < port + fuel → q ∈ used) := by
  intro fuel
  induction fuel with
  | zero =>
    intro port
    constructor
    · intro p h; simp [findAvailablePortAux] at h
    · simp only [findAvailablePortAux, true_iff]
      intro q hq hq'
      omega
  | succ n ih =>
    intro port
    by_cases hmem : port ∈ used
    · constructor
      · intro p h
        simp only [findAvailablePortAux, if_pos hmem] at h
        obtain ⟨h1, h2, h3, h4⟩ := (ih (port + 1)).1 p h
        refine ⟨by omega, by omega, h3, ?_⟩
        intro q hq hq'
        rcases eq_or_lt_of_le hq with rfl | hlt
        · exact hmem
        · exact h4 q (by omega) hq'
      · simp only [findAvailablePortAux, if_pos hmem]
        rw [(ih (port + 1)).2]
        constructor
        · intro h q hq hq'
          rcases eq_or_lt_of_le hq with rfl | hlt
          · exact hmem
          · exact h q (by omega) (by omega)
        · intro h q hq hq'
          exact h q (by omega) (by omega)
    · constructor
      · intro p h
        simp only [findAvailablePortAux, if_neg hmem] at h
        cases h
        refine ⟨le_refl _, by omega, hmem, ?_⟩
        intro q hq hq'
        omega
      · simp only [findAvailablePortAux, if_neg hmem]
        constructor
        · intro h; cases h
        · intro h
          exact absurd (h port (le_refl _) (by omega)) hmem

/-- C2: for every port range with `min ≤ max` and every current set of
claimed ports, a single claim returns the lowest port in `[min, max]`
that is not currently claimed, and fails with `Exhausted` if and only if
every port in the range is claimed. -/
theorem claim_C2_claim_returns_lowest_free_port (used : List Int)
    (minPort maxPort : Int) (h : minPort ≤ maxPort) :
    (∀ p, findAvailablePort used minPort maxPort = some p →
      minPort ≤ p ∧ p ≤ maxPort ∧ p ∉ used ∧
        ∀ q, minPort ≤ q → q < p → q ∈ used) ∧
    (findAvailablePort used minPort maxPort = none ↔
      ∀ q, minPort ≤ q → q ≤ maxPort → q ∈ used) := by
  have key := findAvailablePortAux_spec used (maxPort + 1 - minPort).toNat minPort
  have hfuel : (((maxPort + 1 - minPort).toNat : Int)) = maxPort + 1 - minPort := by
    omega
  unfold findAvailablePort
  constructor
  · intro p hp
    obtain ⟨h1, h2, h3, h4⟩ := key.1 p hp
    exact ⟨h1, by omega, h3, h4⟩
  · rw [key.2]
    constructor
    · intro hall q hq hq'
      exact hall q hq (by omega)
    · intro hall q hq hq'
      exact hall q hq (by omega)

/-- Witness for C2 at a concrete input: over the range `[9000, 9001]`
with `9000` already claimed, the claim returns `9001`. -/
theorem claim_C2_witness :
    (9000 : Int) ≤ 9001 ∧ (9001 : Int) ≤ 9001 ∧
      (9001 : Int) ∉ ([9000] : List Int) :=
  have hsome : findAvailablePort [9000] 9000 9001 = some 9001 := by decide
  have t := (claim_C2_claim_returns_lowest_free_port [9000] 9000 9001
    (by decide)).1 9001 hsome
  ⟨t.1, t.2.1, t.2.2.1⟩

/-- C1 (code bug): the port claim is *not* atomic.  `findAvailablePort`
only scans under the lock and `assignPort` marks under a second,
separate lock acquisition, so in the interleaving
`find₁; find₂; assign₁; assign₂` over a range of exactly one free port,
the second caller observes port 9000 as free and then fails to mark it
used — the state the claim says is never observed. -/
theorem claim_C1_find_then_mark_not_atomic :
    findAvailablePort [] 9000 9000 = some 9000 ∧
    (assignPort 9000 9000 [] 9000).1 = true ∧
    findAvailablePort [] 9000 9000 = some 9000 ∧
    (assignPort 9000 9000 (assignPort 9000 9000 [] 9000).2 9000).1 = false := by
  decide

/-- C10: on a valid range the reported `maxServers` is
`MaxPort − MinPort`, one less than the number of ports in the inclusive
range; on an inverted range it is `0`. -/
theorem claim_C10_max_servers_off_by_one (minPort maxPort : Int) :
    (minPort ≤ maxPort →
      computeMaxServers minPort maxPort = maxPort - minPort ∧
      computeMaxServers minPort maxPort = (portRangeCount minPort maxPort : Int) - 1) ∧
    (maxPort < minPort → computeMaxServers minPort maxPort = 0) := by
  unfold computeMaxServers portRangeCount
  constructor
  · intro h
    rw [if_pos (by omega)]
    constructor
    · rfl
    · omega
  · intro h
    rw [if_neg (by omega)]

/-- Witness for C10 on the ranges `[9000, 9002]` and the inverted
`[9002, 9000]`. -/
theorem claim_C10_witness :
    computeMaxServers 9000 9002 = 2 ∧ portRangeCount 9000 9002 = 3 ∧
      computeMaxServers 9002 9000 = 0 :=
  ⟨(((claim_C10_max_servers_off_by_one 9000 9002).1 (by decide)).1).trans (by decide),
   by decide,
   (claim_C10_max_servers_off_by_one 9002 9000).2 (by decide)⟩

/-- C9: the stop handler's occupancy check is the constant zero, so an
unconfirmed stop never returns the needs-confirmation response and
behaves exactly like a confirmed one. -/
theorem claim_C9_unconfirmed_stop_never_asks (minPort maxPort : Int)
    (reg : Registry) (used : List Int) (name : String) (confirmed : Bool) :
    (handleStopServer minPort maxPort reg used name confirmed).1.isNeedsConfirmation
        = false ∧
    handleStopServer minPort maxPort reg used name false =
      handleStopServer minPort maxPort reg used name true := by
  unfold handleStopServer
  cases h : reg name <;>
    simp [StopOutcome.isNeedsConfirmation, h]

/-- C6: a successful crash-restart replaces the registry record in
place — same name, the identical port the crashed record held, only the
pid changes — leaves every other name untouched, and releases no
port. -/
theorem claim_C6_restart_replaces_record_in_place (minPort maxPort : Int)
    (reg : Registry) (used : List Int) (name : String) (pid port newPid : Int)
    (h : reg name = some ⟨pid, port⟩) :
    (watchAfterExit minPort maxPort reg used name pid port (some newPid)).reg name
        = some ⟨newPid, port⟩ ∧
    (∀ n, n ≠ name →
      (watchAfterExit minPort maxPort reg used name pid port (some newPid)).reg n
        = reg n) ∧
    (watchAfterExit minPort maxPort reg used name pid port (some newPid)).used
        = used ∧
    (watchAfterExit minPort maxPort reg used name pid port (some newPid)).events
        = [.crashDetected name pid, .restartResult name true] := by
  unfold watchAfterExit
  rw [h]
  refine ⟨by simp [registryInsert], ?_, by simp, by simp⟩
  intro n hn
  simp [registryInsert, registryDelete, hn]

/-- Witness for C6: a concrete registry holding `alpha ↦ (pid 41, port
9000)`; after a successful restart with new pid 57 the record is
`(57, 9000)` and the unrelated name `beta` is unchanged. -/
theorem claim_C6_witness :
    (watchAfterExit 9000 9001
        (fun n => if n = "alpha" then some ⟨41, 9000⟩ else none)
        [9000] "alpha" 41 9000 (some 57)).reg ("alpha") = some ⟨57, 9000⟩ ∧
    (watchAfterExit 9000 9001
        (fun n => if n = "alpha" then some ⟨41, 9000⟩ else none)
        [9000] "alpha" 41 9000 (some 57)).reg ("beta") = none ∧
    (watchAfterExit 9000 9001
        (fun n => if n = "alpha" then some ⟨41, 9000⟩ else none)
        [9000] "alpha" 41 9000 (some 57)).used = [9000] :=
  have t := claim_C6_restart_replaces_record_in_place 9000 9001
    (fun n => if n = "alpha" then some ⟨41, 9000⟩ else none)
    [9000] "alpha" 41 9000 57 (by simp)
  ⟨t.1, (t.2.1 ("beta") (by simp)).trans (by simp), t.2.2.1⟩

theorem foldl_skip_append (p : String → Bool) :
    ∀ (l acc : List String),
      l.foldl (fun acc id => if p id then acc else acc ++ [id]) acc
        = acc ++ l.filter (fun id => !(p id)) := by
  intro l
  induction l with
  | nil => intro acc; simp
  | cons x xs ih =>
    intro acc
    by_cases h : p x <;>
      simp [List.filter_cons, h, ih]

theorem addWorkshopPathsTokens_foldl_eq (sp sm : List String) (dir : String) :
    ∀ (ts acc : List XmlToken),
      ts.foldl (addStep sp sm dir) acc
        = acc ++ ts.flatMap (fun t => insertedBefore sp sm dir t ++ [t]) := by
  intro ts
  induction ts with
  | nil => intro acc; simp
  | cons t ts ih =>
    intro acc
    have hstep : addStep sp sm dir acc t
        = acc ++ (insertedBefore sp sm dir t ++ [t]) := by
      cases t with
      | startEl name attrs => simp [addStep, insertedBefore]
      | charData s => simp [addStep, insertedBefore]
      | endEl name =>
        by_cases h1 : name = "playlists" && decide (0 < sp.length) <;>
          by_cases h2 : name = "mods" && decide (0 < sm.length) <;>
            simp [addStep, insertedBefore, h1, h2]
    rw [List.foldl_cons, hstep, ih]
    simp

/-- The reinsertion pass is exactly "emit the synthesized elements
immediately before the matching container end tag, copy everything
else". -/
theorem addWorkshopPathsTokens_eq_flatMap (ts : List XmlToken)
    (sp sm : List String) (dir : String) :
    addWorkshopPathsTokens ts sp sm dir
      = ts.flatMap (fun t => insertedBefore sp sm dir t ++ [t]) := by
  unfold addWorkshopPathsTokens
  rw [addWorkshopPathsTokens_foldl_eq]
  simp

theorem mem_insertedBefore (sp sm : List String) (dir : String)
    (t u : XmlToken) (h : t ∈ insertedBefore sp sm dir u) :
    t = .endEl ("path") ∨
    (∃ id, id ∈ sp ∧ t = .startEl ("path") [("path", playlistPathValue id)]) ∨
    (∃ id, id ∈ sm ∧ t = .startEl ("path") [("path", modPathValue dir id)]) := by
  cases u with
  | startEl name attrs => simp [insertedBefore] at h
  | charData s => simp [insertedBefore] at h
  | endEl name =>
    by_cases h1 : name = "playlists" && decide (0 < sp.length)
    · rw [insertedBefore, if_pos h1] at h
      simp only [playlistElems, List.mem_flatMap, List.mem_cons,
        List.mem_singleton, List.not_mem_nil, or_false] at h
      obtain ⟨id, hid, ht⟩ := h
      rcases ht with rfl | rfl
      · exact Or.inr (Or.inl ⟨id, hid, rfl⟩)
      · exact Or.inl rfl
    · by_cases h2 : name = "mods" && decide (0 < sm.length)
      · rw [insertedBefore, if_neg h1, if_pos h2] at h
        simp only [modElems, List.mem_flatMap, List.mem_cons,
          List.mem_singleton, List.not_mem_nil, or_false] at h
        obtain ⟨id, hid, ht⟩ := h
        rcases ht with rfl | rfl
        · exact Or.inr (Or.inr ⟨id, hid, rfl⟩)
        · exact Or.inl rfl
      · rw [insertedBefore, if_neg h1, if_neg h2] at h
        simp at h

/-- C8: the failed-item list is exactly the extracted ids (playlists
first, then mods, in request order) that are absent from the union of
the two success lists; and the reinsertion pass synthesizes no token
for any id outside the success lists — every output token is either an
input token or part of a synthesized `path` element for a successful
id. -/
theorem claim_C8_failed_ids_and_no_foreign_synthesis
    (rp rm sp sm : List String) :
    (calculateFailedIDs rp rm sp sm
        = (rp ++ rm).filter (fun id => !(sp.contains id || sm.contains id))) ∧
    (∀ id, id ∈ calculateFailedIDs rp rm sp sm ↔
        (id ∈ rp ∨ id ∈ rm) ∧ id ∉ sp ∧ id ∉ sm) ∧
    (∀ ts dir t, t ∈ addWorkshopPathsTokens ts sp sm dir →
        t ∈ ts ∨ t = .endEl ("path") ∨
        (∃ id, id ∈ sp ∧ t = .startEl ("path") [("path", playlistPathValue id)]) ∨
        (∃ id, id ∈ sm ∧ t = .startEl ("path") [("path", modPathValue dir id)])) := by
  have heq : calculateFailedIDs rp rm sp sm
      = (rp ++ rm).filter (fun id => !(sp.contains id || sm.contains id)) := by
    unfold calculateFailedIDs
    rw [foldl_skip_append, foldl_skip_append]
    simp [List.filter_append]
  refine ⟨heq, ?_, ?_⟩
  · intro id
    rw [heq]
    simp [List.mem_filter, List.mem_append, not_or]
    tauto
  · intro ts dir t ht
    rw [addWorkshopPathsTokens_eq_flatMap] at ht
    simp only [List.mem_flatMap, List.mem_append, List.mem_singleton] at ht
    obtain ⟨u, hu, hmem | rfl⟩ := ht
    · exact Or.inr (mem_insertedBefore sp sm dir t u hmem)
    · exact Or.inl hu

/-- Witness for C8: requested playlists `["1","2"]`, mods `["3"]`,
successes `["2"]`/`["3"]` give failed list `["1"]`, and a synthesized
token in a concrete reinsertion run is accounted to a successful id. -/
theorem claim_C8_witness :
    calculateFailedIDs ["1", "2"] ["3"] ["2"] ["3"] = ["1"] ∧
    ("1" ∈ calculateFailedIDs ["1", "2"] ["3"] ["2"] ["3"] ↔
      ("1" ∈ ["1", "2"] ∨ "1" ∈ ["3"]) ∧ "1" ∉ ["2"] ∧ "1" ∉ ["3"]) ∧
    (XmlToken.startEl ("path") [("path", playlistPathValue ("2"))]
        ∈ [XmlToken.startEl ("playlists") [], XmlToken.endEl ("playlists")] ∨
      XmlToken.startEl ("path") [("path", playlistPathValue ("2"))] = .endEl ("path") ∨
      (∃ id, id ∈ ["2"] ∧ XmlToken.startEl ("path") [("path", playlistPathValue ("2"))]
          = .startEl ("path") [("path", playlistPathValue id)]) ∨
      (∃ id, id ∈ ["3"] ∧ XmlToken.startEl ("path") [("path", playlistPathValue ("2"))]
          = .startEl ("path") [("path", modPathValue ("C:\\cfg") id)])) :=
  have t := claim_C8_failed_ids_and_no_foreign_synthesis ["1", "2"] ["3"] ["2"] ["3"]
  ⟨t.1.trans (by decide), t.2.1 ("1"),
   t.2.2 [XmlToken.startEl ("playlists") [], XmlToken.endEl ("playlists")] "C:\\cfg"
     (XmlToken.startEl ("path") [("path", playlistPathValue ("2"))]) (by decide)⟩

/-- C4 counterexample: reinserting successful playlist id `123` into
`<playlists></playlists>` synthesizes a `path` element whose value is
the hardcoded template `/rom/data/workshop_missions/123`.  This is not
the configured playlist install directory joined with the id — for the
configured directory `C:\ws\playlists` the claim's value would be
`C:\ws\playlists\123` — and indeed `addWorkshopPathsToXML` does not
receive the install directories at all (only the server's config
directory, here `C:\cfg\srv`, which the playlist template also
ignores). -/
theorem claim_C4_counterexample :
    addWorkshopPathsTokens [.startEl ("playlists") [], .endEl ("playlists")]
        ["123"] [] "C:\\cfg\\srv"
      = [.startEl ("playlists") [],
         .startEl ("path") [("path", "/rom/data/workshop_missions/123")],
         .endEl ("path"),
         .endEl ("playlists")] ∧
    playlistPathValue ("123") ≠ claimedReinsertedPath ("C:\\ws\\playlists") "123" ∧
    playlistPathValue ("123") ≠ claimedReinsertedPath ("C:\\cfg\\srv") "123" := by
  decide

/-- C4 amended: every synthesized element is placed immediately before
its container's closing tag, one per successful id in order; the
playlist path value is the fixed template
`/rom/data/workshop_missions/<id>` (slash-separated, independent of
configuration), and the mod path value is the server's config directory
joined with `rom\data\workshop_mods\<id>` with every `/` replaced by
`\`. -/
theorem claim_C4_amended_placement_and_templates (ts : List XmlToken)
    (sp sm : List String) (dir : String) (hsp : sp ≠ []) (hsm : sm ≠ []) :
    addWorkshopPathsTokens ts sp sm dir
      = ts.flatMap (fun t => insertedBefore sp sm dir t ++ [t]) ∧
    insertedBefore sp sm dir (.endEl ("playlists"))
      = sp.flatMap (fun id =>
          [.startEl ("path") [("path", "/rom/data/workshop_missions/" ++ id)],
           .endEl ("path")]) ∧
    insertedBefore sp sm dir (.endEl ("mods"))
      = sm.flatMap (fun id =>
          [.startEl ("path")
             [("path", (goPathJoin [dir, "rom", "data", "workshop_mods", id]).replace
                 "/" "\\")],
           .endEl ("path")]) ∧
    (∀ name attrs, insertedBefore sp sm dir (.startEl name attrs) = []) ∧
    (∀ s, insertedBefore sp sm dir (.charData s) = []) := by
  have hsp' : 0 < sp.length := List.length_pos.mpr hsp
  have hsm' : 0 < sm.length := List.length_pos.mpr hsm
  refine ⟨addWorkshopPathsTokens_eq_flatMap ts sp sm dir, ?_, ?_, ?_, ?_⟩
  · simp [insertedBefore, hsp', playlistElems, playlistPathValue]
  · simp [insertedBefore, hsm', modElems, modPathValue]
  · intro name attrs; simp [insertedBefore]
  · intro s; simp [insertedBefore]

/-- Witness for the amended C4 on the concrete stream
`<playlists></playlists><mods></mods>` with one successful id of each
kind. -/
theorem claim_C4_witness :
    addWorkshopPathsTokens
        [.startEl ("playlists") [], .endEl ("playlists"),
         .startEl ("mods") [], .endEl ("mods")]
        ["123"] ["77"] "C:\\cfg\\srv"
      = ([.startEl ("playlists") [], .endEl ("playlists"),
          .startEl ("mods") [], .endEl ("mods")] : List XmlToken).flatMap
          (fun t => insertedBefore ["123"] ["77"] "C:\\cfg\\srv" t ++ [t]) ∧
    insertedBefore ["123"] ["77"] "C:\\cfg\\srv" (.endEl ("playlists"))
      = [.startEl ("path") [("path", "/rom/data/workshop_missions/123")],
         .endEl ("path")] :=
  have t := claim_C4_amended_placement_and_templates
    [.startEl ("playlists") [], .endEl ("playlists"),
     .startEl ("mods") [], .endEl ("mods")]
    ["123"] ["77"] "C:\\cfg\\srv" (by decide) (by decide)
  ⟨t.1, t.2.1.trans (by decide)⟩

/-- C7 counterexample: the passes re-encode through an encoder
configured with `Indent("", "  ")`, which reformats untouched content.
On the input bytes `<server_data port="8000"><foo/></server_data>` the
port-rewrite pass to port `8000` leaves every token unchanged — nothing
beyond the root's `port` attribute is touched, and that is set to the
value it already has — yet the output bytes differ from the input: the
untouched `<foo/>` element is re-emitted as an expanded `<foo></foo>`
on its own indented line.  So untouched elements are not reproduced
byte-for-byte. -/
theorem claim_C7_counterexample :
    updateXmlPortTokens 8000 serverDataFooTokens = serverDataFooTokens ∧
    encodeTokens (updateXmlPortTokens 8000 serverDataFooTokens)
      = "<server_data port=\"8000\">\n  <foo></foo>\n</server_data>" ∧
    encodeTokens (updateXmlPortTokens 8000 serverDataFooTokens)
      ≠ "<server_data port=\"8000\"><foo/></server_data>" := by
  decide

/-- C7 amended: the frame property holds token-for-token rather than
byte-for-byte.  The port-rewrite pass is a per-token map that fixes
every token other than a `server_data` start tag and, on `server_data`,
preserves all non-`port` attributes in order; the extraction pass
reproduces a stream containing no `playlists`/`mods` container start
unchanged, extracting nothing.  (Byte-level identity fails because the
re-encoder normalizes formatting — see the counterexample.) -/
theorem claim_C7_amended_token_frame :
    (∀ (p : Int) (ts : List XmlToken),
      updateXmlPortTokens p ts = ts.map (updatePortToken (toString p))) ∧
    (∀ (pstr name : String) (attrs : List (String × String)),
      name ≠ "server_data" →
        updatePortToken pstr (.startEl name attrs) = .startEl name attrs) ∧
    (∀ pstr name, updatePortToken pstr (.endEl name) = .endEl name) ∧
    (∀ pstr s, updatePortToken pstr (.charData s) = .charData s) ∧
    (∀ (pstr : String) (attrs : List (String × String)),
      (updatePortAttrs pstr attrs).filter (fun a => !(a.1 == "port"))
        = attrs.filter (fun a => !(a.1 == "port"))) ∧
    (∀ ts : List XmlToken,
      (∀ attrs, XmlToken.startEl ("playlists") attrs ∉ ts) →
      (∀ attrs, XmlToken.startEl ("mods") attrs ∉ ts) →
      extractRun ts = ⟨false, false, 0, [], [], ts⟩) := by
  refine ⟨fun p ts => rfl, ?_, fun pstr name => rfl, fun pstr s => rfl, ?_, ?_⟩
  · intro pstr name attrs h
    simp [updatePortToken, h]
  · intro pstr attrs
    have hmap : ∀ (l : List (String × String)),
        (l.map (fun a => if a.1 = "port" then ("port", pstr) else a)).filter
            (fun a => !(a.1 == "port"))
          = l.filter (fun a => !(a.1 == "port")) := by
      intro l
      induction l with
      | nil => rfl
      | cons a rest ih =>
        by_cases ha : a.1 = "port"
        · simp [List.filter_cons, ha, ih]
        · simp [List.filter_cons, ha, ih]
    unfold updatePortAttrs
    by_cases h : attrs.any (fun a => a.1 = "port")
    · rw [if_pos h, hmap]
    · rw [if_neg h, List.filter_append, hmap]
      simp
  · intro ts
    suffices hgen : ∀ (ts : List XmlToken) (pl ml : List String)
        (out : List XmlToken),
        (∀ attrs, XmlToken.startEl ("playlists") attrs ∉ ts) →
        (∀ attrs, XmlToken.startEl ("mods") attrs ∉ ts) →
        ts.foldl extractStep ⟨false, false, 0, pl, ml, out⟩
          = ⟨false, false, 0, pl, ml, out ++ ts⟩ by
      intro h1 h2
      simpa [extractRun] using hgen ts [] [] [] h1 h2
    intro ts
    induction ts with
    | nil => intro pl ml out _ _; simp
    | cons t rest ih =>
      intro pl ml out h1 h2
      have h1' : ∀ attrs, XmlToken.startEl ("playlists") attrs ∉ rest :=
        fun attrs hmem => h1 attrs (List.mem_cons_of_mem _ hmem)
      have h2' : ∀ attrs, XmlToken.startEl ("mods") attrs ∉ rest :=
        fun attrs hmem => h2 attrs (List.mem_cons_of_mem _ hmem)
      have hstep : extractStep ⟨false, false, 0, pl, ml, out⟩ t
          = ⟨false, false, 0, pl, ml, out ++ [t]⟩ := by
        cases t with
        | startEl name attrs =>
          have hnp : name ≠ "playlists" := by
            intro heq; subst heq
            exact h1 attrs (List.mem_cons_self _ _)
          have hnm : name ≠ "mods" := by
            intro heq; subst heq
            exact h2 attrs (List.mem_cons_self _ _)
          simp [extractStep, hnp, hnm]
        | endEl name =>
          by_cases hp : name = "playlists" <;>
            by_cases hm : name = "mods" <;>
              simp [extractStep, hp, hm]
        | charData s => simp [extractStep]
      rw [List.foldl_cons, hstep, ih pl ml (out ++ [t]) h1' h2']
      simp

/-- Witness for the amended C7: the port-rewrite applied to the
concrete `<server_data port="8000"><foo/></server_data>` token stream,
a non-root start token, a non-`port` attribute list, and a
container-free stream for the extraction frame. -/
theorem claim_C7_witness :
    updateXmlPortTokens 9000 serverDataFooTokens
      = serverDataFooTokens.map (updatePortToken (toString (9000 : Int))) ∧
    updatePortToken ("9000") (.startEl ("foo") []) = .startEl ("foo") [] ∧
    (updatePortAttrs ("9000") [("name", "srv"), ("port", "1")]).filter
        (fun a => !(a.1 == "port"))
      = [("name", "srv"), ("port", "1")].filter (fun a => !(a.1 == "port")) ∧
    extractRun [XmlToken.startEl ("foo") [], XmlToken.charData ("x"),
        XmlToken.endEl ("foo")]
      = ⟨false, false, 0, [], [],
         [XmlToken.startEl ("foo") [], XmlToken.charData ("x"),
          XmlToken.endEl ("foo")]⟩ :=
  have t := claim_C7_amended_token_frame
  ⟨t.1 9000 serverDataFooTokens,
   t.2.1 ("9000") "foo" [] (by decide),
   t.2.2.2.2.1 ("9000") [("name", "srv"), ("port", "1")],
   t.2.2.2.2.2 [XmlToken.startEl ("foo") [], XmlToken.charData ("x"),
      XmlToken.endEl ("foo")]
     (by intro attrs; simp) (by intro attrs; simp)⟩

theorem flattenForest_append : ∀ (a b : XmlForest),
    flattenForest (forestAppend a b) = flattenForest a ++ flattenForest b
  | .nil, b => by simp [forestAppend, flattenForest]
  | .cons t f, b => by
    simp [forestAppend, flattenForest, flattenForest_append f b]

theorem findWorkshopAttr_eq_none :
    ∀ (a : List (String × String)), (∀ p ∈ a, p.1 ≠ "path") →
      findWorkshopAttr a = none
  | [], _ => rfl
  | (n, v) :: rest, h => by
    have hn : n ≠ "path" := h (n, v) (List.mem_cons_self _ _)
    simp only [findWorkshopAttr, if_neg hn]
    exact findWorkshopAttr_eq_none rest
      (fun p hp => h p (List.mem_cons_of_mem _ hp))

/-- With at most one `path` attribute, the code's attribute scan agrees
with the spec-side classification via the `path` attribute's value. -/
theorem findWorkshopAttr_char (a : List (String × String))
    (hcount : (a.filter (fun p => p.1 == "path")).length ≤ 1) :
    findWorkshopAttr a =
      match pathAttr a with
      | some v => if isNumericId v then some v else none
      | none => none := by
  induction a with
  | nil => rfl
  | cons p rest ih =>
    obtain ⟨n, v⟩ := p
    by_cases hn : n = "path"
    · subst hn
      have hone : rest.filter (fun p => p.1 == "path") = [] := by
        rw [List.filter_cons] at hcount
        simp only [beq_self_eq_true, if_pos, List.length_cons] at hcount
        exact List.length_eq_zero.mp (by omega)
      have hnone : findWorkshopAttr rest = none :=
        findWorkshopAttr_eq_none rest (by
          intro q hq hqeq
          have : q ∈ rest.filter (fun p => p.1 == "path") := by
            rw [List.mem_filter]
            exact ⟨hq, by simp [hqeq]⟩
          rw [hone] at this
          exact List.not_mem_nil q this)
      by_cases hnum : isNumericId v <;>
        simp [findWorkshopAttr, pathAttr, List.find?_cons, hnum, hnone]
    · have hcount' : (rest.filter (fun p => p.1 == "path")).length ≤ 1 := by
        rw [List.filter_cons] at hcount
        simp only [show ((n, v).1 == "path") = false by simp [hn]] at hcount
        simpa using hcount
      simp only [findWorkshopAttr, if_neg hn]
      rw [ih hcount']
      simp [pathAttr, List.find?_cons, show (n == "path") = false by simp [hn]]

mutual

/-- The extraction loop, run over the token stream of one well-formed
tree from a quiescent state whose flags match the position, behaves as
the specification-side extraction of that tree. -/
theorem extract_tree_spec (m : Mode) (t : XmlTree) (s : ExtractState)
    (hwf : wfTree m t = true) (hskip : s.skip = 0)
    (hP : s.inPlaylists = (modeFlags m).1) (hM : s.inMods = (modeFlags m).2) :
    (flattenTree t).foldl extractStep s =
      { s with playlistIDs := s.playlistIDs ++ (pathLeafSpecTree m t).1,
               modIDs := s.modIDs ++ (pathLeafSpecTree m t).2.1,
               output := s.output ++ flattenForest (pathLeafSpecTree m t).2.2 } := by
  obtain ⟨sP, sM, sk, pl, ml, out⟩ := s
  simp only at hskip hP hM
  subst hskip hP hM
  cases t with
  | txt str =>
    simp [flattenTree, pathLeafSpecTree, flattenForest, extractStep]
  | elem n a f =>
    cases m with
    | outside =>
      by_cases hn1 : n = "playlists"
      · subst hn1
        have hwf' : wfForest (.inside .playlist) f = true := by
          simpa [wfTree] using hwf
        have ihf := extract_forest_spec (.inside .playlist) f
          ⟨true, false, 0, pl, ml,
            out ++ [.startEl ("playlists") a]⟩ hwf' rfl rfl rfl
        have h1 : extractStep ⟨(modeFlags .outside).1, (modeFlags .outside).2,
              0, pl, ml, out⟩ (.startEl ("playlists") a)
            = ⟨true, false, 0, pl, ml, out ++ [.startEl ("playlists") a]⟩ := by
          simp [extractStep, modeFlags]
        simp only [flattenTree, List.foldl_cons, List.foldl_append, h1, ihf]
        simp [extractStep, pathLeafSpecTree, flattenForest, flattenTree, modeFlags]
      · by_cases hn2 : n = "mods"
        · subst hn2
          have hwf' : wfForest (.inside .mod) f = true := by
            simpa [wfTree, hn1] using hwf
          have ihf := extract_forest_spec (.inside .mod) f
            ⟨false, true, 0, pl, ml,
              out ++ [.startEl ("mods") a]⟩ hwf' rfl rfl rfl
          have h1 : extractStep ⟨(modeFlags .outside).1, (modeFlags .outside).2,
                0, pl, ml, out⟩ (.startEl ("mods") a)
              = ⟨false, true, 0, pl, ml, out ++ [.startEl ("mods") a]⟩ := by
            simp [extractStep, modeFlags, hn1]
          simp only [flattenTree, List.foldl_cons, List.foldl_append, h1, ihf]
          simp [extractStep, pathLeafSpecTree, flattenForest, flattenTree, modeFlags, hn1]
        · have hwf' : wfForest .outside f = true := by
            simpa [wfTree, hn1, hn2] using hwf
          have ihf := extract_forest_spec .outside f
            ⟨false, false, 0, pl, ml, out ++ [.startEl n a]⟩ hwf' rfl rfl rfl
          have h1 : extractStep ⟨(modeFlags .outside).1, (modeFlags .outside).2,
                0, pl, ml, out⟩ (.startEl n a)
              = ⟨false, false, 0, pl, ml, out ++ [.startEl n a]⟩ := by
            simp [extractStep, modeFlags, hn1, hn2]
          simp only [flattenTree, List.foldl_cons, List.foldl_append, h1, ihf]
          simp [extractStep, pathLeafSpecTree, flattenForest, flattenTree, modeFlags,
            hn1, hn2]
    | inside k =>
      simp only [wfTree, Bool.and_eq_true, Bool.not_eq_true',
        beq_eq_false_iff_ne] at hwf
      obtain ⟨⟨hn1, hn2⟩, hrest⟩ := hwf
      have hflagor : ((modeFlags (.inside k)).1 || (modeFlags (.inside k)).2)
          = true := by cases k <;> rfl
      by_cases hp : n = "path"
      · subst hp
        rw [if_pos rfl, Bool.and_eq_true, decide_eq_true_eq] at hrest
        obtain ⟨hcount, hbody⟩ := hrest
        by_cases href : isContentRef a = true
        · rw [if_pos href] at hbody
          cases f with
          | cons t g => simp at hbody
          | nil =>
            cases hpa : pathAttr a with
            | none => simp [isContentRef, hpa] at href
            | some v =>
              have hnum : isNumericId v = true := by
                simpa [isContentRef, hpa] using href
              have hfind : findWorkshopAttr a = some v := by
                rw [findWorkshopAttr_char a hcount, hpa]
                simp [hnum]
              cases k with
              | playlist =>
                have h1 : extractStep ⟨(modeFlags (.inside .playlist)).1,
                      (modeFlags (.inside .playlist)).2, 0, pl, ml, out⟩
                      (.startEl ("path") a)
                    = ⟨true, false, 1, pl ++ [v], ml, out⟩ := by
                  simp [extractStep, modeFlags, hfind]
                simp only [flattenTree, flattenForest, List.nil_append,
                  List.foldl_cons, h1]
                simp [extractStep, pathLeafSpecTree, hpa, href, flattenForest, modeFlags]
              | mod =>
                have h1 : extractStep ⟨(modeFlags (.inside .mod)).1,
                      (modeFlags (.inside .mod)).2, 0, pl, ml, out⟩
                      (.startEl ("path") a)
                    = ⟨false, true, 1, pl, ml ++ [v], out⟩ := by
                  simp [extractStep, modeFlags, hfind]
                simp only [flattenTree, flattenForest, List.nil_append,
                  List.foldl_cons, h1]
                simp [extractStep, pathLeafSpecTree, hpa, href, flattenForest, modeFlags]
        · rw [if_neg href] at hbody
          have hfind : findWorkshopAttr a = none := by
            rw [findWorkshopAttr_char a hcount]
            cases hpa : pathAttr a with
            | none => rfl
            | some v =>
              have hnum : isNumericId v = false := by
                have := href
                simp only [isContentRef, hpa, Bool.not_eq_true] at this
                exact this
              simp [hnum]
          have h1 : extractStep ⟨(modeFlags (.inside k)).1,
                (modeFlags (.inside k)).2, 0, pl, ml, out⟩ (.startEl ("path") a)
              = ⟨(modeFlags (.inside k)).1, (modeFlags (.inside k)).2, 0,
                 pl, ml, out ++ [.startEl ("path") a]⟩ := by
            simp [extractStep, hn1, hn2, hfind, hflagor]
          have ihf := extract_forest_spec (.inside k) f
            ⟨(modeFlags (.inside k)).1, (modeFlags (.inside k)).2, 0,
             pl, ml, out ++ [.startEl ("path") a]⟩ hbody rfl rfl rfl
          simp only [flattenTree, List.foldl_cons, List.foldl_append, h1, ihf]
          simp [extractStep, pathLeafSpecTree, href, flattenForest, flattenTree,
            hn1, hn2]
      · rw [if_neg hp] at hrest
        have h1 : extractStep ⟨(modeFlags (.inside k)).1,
              (modeFlags (.inside k)).2, 0, pl, ml, out⟩ (.startEl n a)
            = ⟨(modeFlags (.inside k)).1, (modeFlags (.inside k)).2, 0,
               pl, ml, out ++ [.startEl n a]⟩ := by
          simp [extractStep, hn1, hn2, hp]
        have ihf := extract_forest_spec (.inside k) f
          ⟨(modeFlags (.inside k)).1, (modeFlags (.inside k)).2, 0,
           pl, ml, out ++ [.startEl n a]⟩ hrest rfl rfl rfl
        simp only [flattenTree, List.foldl_cons, List.foldl_append, h1, ihf]
        simp [extractStep, pathLeafSpecTree, hp, flattenForest, flattenTree, hn1, hn2]

/-- Forest version of `extract_tree_spec`. -/
theorem extract_forest_spec (m : Mode) (f : XmlForest) (s : ExtractState)
    (hwf : wfForest m f = true) (hskip : s.skip = 0)
    (hP : s.inPlaylists = (modeFlags m).1) (hM : s.inMods = (modeFlags m).2) :
    (flattenForest f).foldl extractStep s =
      { s with playlistIDs := s.playlistIDs ++ (pathLeafSpecForest m f).1,
               modIDs := s.modIDs ++ (pathLeafSpecForest m f).2.1,
               output := s.output ++ flattenForest (pathLeafSpecForest m f).2.2 } := by
  cases f with
  | nil =>
    obtain ⟨sP, sM, sk, pl, ml, out⟩ := s
    simp [flattenForest, pathLeafSpecForest]
  | cons t g =>
    simp only [wfForest, Bool.and_eq_true] at hwf
    obtain ⟨hwt, hwg⟩ := hwf
    have iht := extract_tree_spec m t s hwt hskip hP hM
    have ihg := extract_forest_spec m g
      { s with playlistIDs := s.playlistIDs ++ (pathLeafSpecTree m t).1,
               modIDs := s.modIDs ++ (pathLeafSpecTree m t).2.1,
               output := s.output ++ flattenForest (pathLeafSpecTree m t).2.2 }
      hwg (by simpa using hskip) (by simpa using hP) (by simpa using hM)
    rw [show flattenForest (.cons t g) = flattenTree t ++ flattenForest g
      from rfl, List.foldl_append, iht, ihg]
    simp [pathLeafSpecForest, flattenForest_append, List.append_assoc]

end

/-- C3 counterexample: the claim (and the spec's words) extract *any*
leaf element inside a container carrying a solely-numeric `path`
attribute, but the code additionally requires the element to be named
`path` (`currentTagName == "path"` in `extractWorkshopIDsAndModifyXML`).
On the well-formed document `<playlists><item path="123"/></playlists>`
the claim's rule records `123` as a playlist reference and drops the
element, while the extraction pass records nothing and reproduces the
element unchanged — so the pass does not record exactly the values the
claim describes. -/
theorem claim_C3_counterexample :
    wfForest .outside playlistsItemDoc = true ∧
    (claimLeafSpecForest .outside playlistsItemDoc).1 = ["123"] ∧
    (claimLeafSpecForest .outside playlistsItemDoc).2.1 = [] ∧
    flattenForest (claimLeafSpecForest .outside playlistsItemDoc).2.2
      = [.startEl ("playlists") [], .endEl ("playlists")] ∧
    extractRun (flattenForest playlistsItemDoc)
      = ⟨false, false, 0, [], [], flattenForest playlistsItemDoc⟩ ∧
    extractRun (flattenForest playlistsItemDoc)
      ≠ ⟨false, false, 0,
         (claimLeafSpecForest .outside playlistsItemDoc).1,
         (claimLeafSpecForest .outside playlistsItemDoc).2.1,
         flattenForest (claimLeafSpecForest .outside playlistsItemDoc).2.2⟩ := by
  decide

/-- C3 amended: restricted to leaf elements *named `path`* — the code's
classification also checks the element name — the claim holds: on every
well-formed configuration document, the extraction pass records exactly
the solely-numeric `path`-attribute values of `path`-named leaf
elements inside a `playlists` or `mods` container, under the
container's kind, in encounter order, duplicates preserved; it drops
exactly those elements and reproduces everything else (in particular
every element whose `path` attribute has a non-numeric value)
unchanged: the token machine's result coincides with the tree-level
rule `pathLeafSpecForest`. -/
theorem claim_C3_amended_named_path_extraction (f : XmlForest)
    (hwf : wfForest .outside f = true) :
    extractRun (flattenForest f) =
      { inPlaylists := false, inMods := false, skip := 0,
        playlistIDs := (pathLeafSpecForest .outside f).1,
        modIDs := (pathLeafSpecForest .outside f).2.1,
        output := flattenForest (pathLeafSpecForest .outside f).2.2 } := by
  have h := extract_forest_spec .outside f ⟨false, false, 0, [], [], []⟩
    hwf rfl rfl rfl
  simpa [extractRun] using h

/-- Witness for the amended C3 on the spec's round-trip example: id
`123` is extracted as a playlist id and its element dropped; the
non-numeric `path path="abc"` element is preserved unchanged. -/
theorem claim_C3_witness :
    extractRun (flattenForest wfDocExample) =
      ⟨false, false, 0, ["123"], [],
       [.startEl ("server_data") [("port", "8000")], .startEl ("playlists") [],
        .startEl ("path") [("path", "abc")], .endEl ("path"),
        .endEl ("playlists"), .endEl ("server_data")]⟩ :=
  (claim_C3_amended_named_path_extraction wfDocExample (by decide)).trans
    (by decide)

theorem extractDownloadedIds_nodup (lines : List String) :
    (extractDownloadedIds lines).Nodup := by
  suffices h : ∀ (ls acc : List String), acc.Nodup →
      (ls.foldl (fun acc line =>
        match successMarkerId line with
        | some id => if id ∈ acc then acc else acc ++ [id]
        | none => acc) acc).Nodup by
    exact h lines [] List.nodup_nil
  intro ls
  induction ls with
  | nil => intro acc h; exact h
  | cons l rest ih =>
    intro acc h
    simp only [List.foldl_cons]
    cases hm : successMarkerId l with
    | none => simpa only [hm] using ih acc h
    | some id =>
      by_cases hmem : id ∈ acc
      · simpa only [hm, if_pos hmem] using ih acc h
      · simp only [hm, if_neg hmem]
        refine ih _ ?_
        simp [List.nodup_append, h, hmem]

theorem itemKind_eq_playlist (rp rm : List String)
    (hdisj : ∀ id, id ∈ rp → id ∉ rm) (id : String) :
    itemKind rp rm id = some Kind.playlist ↔ id ∈ rp := by
  unfold itemKind
  by_cases h1 : id ∈ rm
  · rw [if_pos h1]
    constructor
    · intro h; simp at h
    · intro hrp; exact absurd h1 (hdisj id hrp)
  · rw [if_neg h1]
    by_cases h2 : id ∈ rp
    · simp [h2]
    · simp [h2]

theorem itemKind_eq_mod (rp rm : List String) (id : String) :
    itemKind rp rm id = some Kind.mod ↔ id ∈ rm := by
  unfold itemKind
  by_cases h1 : id ∈ rm
  · simp [h1]
  · rw [if_neg h1]
    by_cases h2 : id ∈ rp
    · simp [h2, h1]
    · simp [h2, h1]

/-- C5: the success lists returned by the fetcher contain exactly the
requested ids that both appeared in the tool's success-marker output
(ids are recorded once each, idempotently against repeated markers) and
were materialized without error; a missing source, a removal error or a
copy error demotes only that id, since membership of each id depends
only on its own marker and its own materialization outcome. -/
theorem claim_C5_fetcher_success_accounting (rp rm : List String)
    (playlistDir modDir gameAppID steamCmdPath : String) (env : FetchEnv)
    (lines : List String) (hdisj : ∀ id, id ∈ rp → id ∉ rm) :
    (∀ id,
      id ∈ (downloadWorkshopItems rp rm playlistDir modDir gameAppID
          steamCmdPath env lines).1 ↔
        id ∈ rp ∧ id ∈ extractDownloadedIds lines ∧
          materializeOk env (steamCmdContentBase steamCmdPath gameAppID)
            playlistDir modDir .playlist id = true) ∧
    (∀ id,
      id ∈ (downloadWorkshopItems rp rm playlistDir modDir gameAppID
          steamCmdPath env lines).2 ↔
        id ∈ rm ∧ id ∈ extractDownloadedIds lines ∧
          materializeOk env (steamCmdContentBase steamCmdPath gameAppID)
            playlistDir modDir .mod id = true) ∧
    (extractDownloadedIds lines).Nodup := by
  refine ⟨?_, ?_, extractDownloadedIds_nodup lines⟩
  · intro id
    by_cases hempty : rp.isEmpty && rm.isEmpty
    · obtain ⟨hrp, hrm⟩ : rp = [] ∧ rm = [] := by
        simpa only [Bool.and_eq_true, List.isEmpty_iff] using hempty
      simp [downloadWorkshopItems, hrp, hrm]
    · simp only [downloadWorkshopItems, if_neg hempty, List.mem_filter,
        decide_eq_true_eq]
      constructor
      · rintro ⟨⟨hdl, hP⟩, hkind⟩
        refine ⟨(itemKind_eq_playlist rp rm hdisj id).mp hkind, hdl, ?_⟩
        rw [hkind] at hP
        exact hP
      · rintro ⟨hrp, hdl, hmat⟩
        have hkind : itemKind rp rm id = some Kind.playlist :=
          (itemKind_eq_playlist rp rm hdisj id).mpr hrp
        exact ⟨⟨hdl, by rw [hkind]; exact hmat⟩, hkind⟩
  · intro id
    by_cases hempty : rp.isEmpty && rm.isEmpty
    · obtain ⟨hrp, hrm⟩ : rp = [] ∧ rm = [] := by
        simpa only [Bool.and_eq_true, List.isEmpty_iff] using hempty
      simp [downloadWorkshopItems, hrp, hrm]
    · simp only [downloadWorkshopItems, if_neg hempty, List.mem_filter,
        decide_eq_true_eq]
      constructor
      · rintro ⟨⟨hdl, hP⟩, hkind⟩
        refine ⟨(itemKind_eq_mod rp rm id).mp hkind, hdl, ?_⟩
        rw [hkind] at hP
        exact hP
      · rintro ⟨hrm, hdl, hmat⟩
        have hkind : itemKind rp rm id = some Kind.mod :=
          (itemKind_eq_mod rp rm id).mpr hrm
        exact ⟨⟨hdl, by rw [hkind]; exact hmat⟩, hkind⟩

/-- Witness for C5: one requested playlist id `111`, a tool output line
carrying its success marker, and an all-succeeding filesystem: `111` is
in the playlist success list. -/
theorem claim_C5_witness :
    "111" ∈ (downloadWorkshopItems ["111"] [] "pl" "md" "573090"
        "tools/steamcmd.exe" trivialFetchEnv
        ["Success. Downloaded item 111 to cache"]).1 ∧
    (extractDownloadedIds ["Success. Downloaded item 111 to cache"]).Nodup :=
  have t := claim_C5_fetcher_success_accounting ["111"] [] "pl" "md" "573090"
    "tools/steamcmd.exe" trivialFetchEnv
    ["Success. Downloaded item 111 to cache"]
    (by intro id h; simp)
  ⟨(t.1 ("111")).mpr ⟨by decide, by decide, by decide⟩, t.2.2⟩

end SWSC
